import Mathlib

/-!
Verification development for the JSON analyzer core
(`src/json_analyzer.py`): the value model, the structural analyzer
(`analyze_structure` / `recursive_analyze`), the schema validator
(`validate_schema`) and the duplicate finder (`find_duplicates`),
embedded as executable Lean definitions, together with theorems about
their behaviour.
-/

namespace JsonAnalyzer

/-- The JSON value tree the analyzer operates on, exactly the values
`json.load` can produce: `None`, `bool`, `int`, `float`, `str`, `list`,
`dict` (keys in insertion order).  The core never does arithmetic on
numbers — it only inspects their runtime type name and serializes them —
so a float is carried as the string `repr` of the parsed Python float,
which is also the text both `json.dumps` and `str` print for it. -/
inductive Value where
  | null
  | bool (b : Bool)
  | int (n : Int)
  | float (r : String)
  | str (s : String)
  | arr (elems : List Value)
  | obj (fields : List (String × Value))

/-- Python `type(obj).__name__` on each of the seven runtime shapes. -/
def pyTypeName : Value → String
  | .null => "NoneType"
  | .bool _ => "bool"
  | .int _ => "int"
  | .float _ => "float"
  | .str _ => "str"
  | .arr _ => "list"
  | .obj _ => "dict"

/-- Python `value is None`. -/
def isNull : Value → Bool
  | .null => true
  | _ => false

/-- The `stats` dictionary built by `recursive_analyze`
(src/json_analyzer.py lines 43-50).  `type_counts` models the
`Counter`: a total function from label to count, zero outside its
support. -/
structure Stats where
  type_counts : String → Nat
  max_depth : Nat
  total_keys : Nat
  null_values : Nat
  arrays : Nat
  objects : Nat

/-- Merging one child's stats into the accumulator
(src/json_analyzer.py lines 59-65 and 72-78): counters and the four
numeric fields add, `max_depth` takes the maximum. -/
def mergeChild (s c : Stats) : Stats :=
  { type_counts := fun l => s.type_counts l + c.type_counts l
    max_depth := max s.max_depth c.max_depth
    total_keys := s.total_keys + c.total_keys
    null_values := s.null_values + c.null_values
    arrays := s.arrays + c.arrays
    objects := s.objects + c.objects }

mutual

/-- Embeds `recursive_analyze(obj, depth, max_depth)`
(src/json_analyzer.py lines 42-82).  A dict contributes `objects += 1`,
`total_keys += len(obj)`, a `null_values` bump per `None` value, and
merges every child analyzed at `depth+1` with
`max(max_depth, depth+1)`; a list contributes `arrays += 1` and
`type_counts['array'] += 1` and merges its elements the same way; any
other value contributes `type_counts[type(obj).__name__] += 1`. -/
def recursive_analyze : Value → Nat → Nat → Stats
  | .obj fields, depth, maxd =>
      analyzeFields fields depth maxd
        { type_counts := fun _ => 0, max_depth := maxd,
          total_keys := fields.length, null_values := 0,
          arrays := 0, objects := 1 }
  | .arr elems, depth, maxd =>
      analyzeElems elems depth maxd
        { type_counts := fun l => if l == "array" then 1 else 0,
          max_depth := maxd, total_keys := 0, null_values := 0,
          arrays := 1, objects := 0 }
  | v, _, maxd =>
      { type_counts := fun l => if l == pyTypeName v then 1 else 0,
        max_depth := maxd, total_keys := 0, null_values := 0,
        arrays := 0, objects := 0 }

/-- The `for key, value in obj.items()` loop of `recursive_analyze`
(src/json_analyzer.py lines 55-65): bump `null_values` for a `None`
value, then merge the recursively analyzed child into the
accumulator. -/
def analyzeFields : List (String × Value) → Nat → Nat → Stats → Stats
  | [], _, _, acc => acc
  | (_, v) :: rest, depth, maxd, acc =>
      let acc1 := if isNull v then
        { acc with null_values := acc.null_values + 1 } else acc
      analyzeFields rest depth maxd
        (mergeChild acc1 (recursive_analyze v (depth + 1) (max maxd (depth + 1))))

/-- The `for item in obj` loop of `recursive_analyze`
(src/json_analyzer.py lines 70-78). -/
def analyzeElems : List Value → Nat → Nat → Stats → Stats
  | [], _, _, acc => acc
  | v :: rest, depth, maxd, acc =>
      analyzeElems rest depth maxd
        (mergeChild acc (recursive_analyze v (depth + 1) (max maxd (depth + 1))))

end

/-- Embeds `analyze_structure` (src/json_analyzer.py line 84): the root
call of `recursive_analyze` with `depth = 0`, `max_depth = 0`. -/
def analyze_structure (v : Value) : Stats :=
  recursive_analyze v 0 0

/-- The `results` dictionary of `validate_schema`
(src/json_analyzer.py lines 89-93); `error` is `none` when the code
never sets the `'error'` key. -/
structure ValidationResult where
  valid : Bool
  missing_keys : List String
  found_keys : List String
  error : Option String

/-- Python `key in self.data` on a dict: membership in the key set. -/
def objHasKey (fields : List (String × Value)) (k : String) : Bool :=
  fields.any (fun kv => kv.1 == k)

/-- One iteration of the `for key in required_keys` loop of
`validate_schema` (src/json_analyzer.py lines 100-105). -/
def validateStep (fields : List (String × Value)) (r : ValidationResult)
    (key : String) : ValidationResult :=
  if objHasKey fields key then
    { r with found_keys := r.found_keys ++ [key] }
  else
    { r with missing_keys := r.missing_keys ++ [key], valid := false }

/-- Embeds `validate_schema(required_keys)`
(src/json_analyzer.py lines 87-107) run on a given root value: a
non-dict root returns immediately with the error message, otherwise
each required key is appended to `found_keys` or `missing_keys` in
order, clearing `valid` on every miss. -/
def validate_schema (v : Value) (required_keys : List String) : ValidationResult :=
  match v with
  | .obj fields =>
      required_keys.foldl (validateStep fields)
        { valid := true, missing_keys := [], found_keys := [], error := none }
  | _ =>
      { valid := false, missing_keys := [], found_keys := [],
        error := some "Root must be an object for schema validation" }

/-- One entry of the `duplicates` list built by `find_duplicates`
(src/json_analyzer.py lines 121-125): the containing array's path, the
repeated value, and the pair (first index, current index). -/
structure DuplicateRecord where
  path : String
  value : Value
  indices : Nat × Nat

/-- Hex digit used by string-escape helpers. -/
def hexDigit (n : Nat) : Char :=
  if n < 10 then Char.ofNat (48 + n) else Char.ofNat (87 + n)

/-- Two lowercase hex digits, as in Python's `\xNN` escapes. -/
def hex2 (n : Nat) : String :=
  String.mk [hexDigit ((n / 16) % 16), hexDigit (n % 16)]

/-- Four lowercase hex digits, as in JSON's `\uNNNN` escapes. -/
def hex4 (n : Nat) : String :=
  String.mk [hexDigit ((n / 4096) % 16), hexDigit ((n / 256) % 16),
             hexDigit ((n / 16) % 16), hexDigit (n % 16)]

/-- How `json.dumps` (default `ensure_ascii=True`) escapes one character
of a string: `"` and backslash are backslash-escaped, the common control
characters use their short escapes, every other character outside
printable ASCII becomes `\uNNNN` (a surrogate pair above U+FFFF). -/
def jsonEscapeChar (c : Char) : String :=
  if c = Char.ofNat 34 then String.mk [Char.ofNat 92, Char.ofNat 34]
  else if c = Char.ofNat 92 then String.mk [Char.ofNat 92, Char.ofNat 92]
  else if c = Char.ofNat 10 then "\\n"
  else if c = Char.ofNat 9 then "\\t"
  else if c = Char.ofNat 13 then "\\r"
  else if c = Char.ofNat 8 then "\\b"
  else if c = Char.ofNat 12 then "\\f"
  else if c.toNat < 32 ∨ 126 < c.toNat then
    if c.toNat < 65536 then "\\u" ++ hex4 c.toNat
    else "\\u" ++ hex4 (55296 + (c.toNat - 65536) / 1024) ++
         "\\u" ++ hex4 (56320 + (c.toNat - 65536) % 1024)
  else String.mk [c]

/-- `json.dumps` of a Python `str`: double-quoted with JSON escapes. -/
def jsonQuote (s : String) : String :=
  "\"" ++ String.join (s.toList.map jsonEscapeChar) ++ "\""

/-- How Python `repr` escapes one character of a `str`, given the chosen
quote character: backslash and the quote are backslash-escaped, newline,
carriage return and tab use their short escapes, other ASCII control
characters become `\xNN`. -/
def pyReprEscapeChar (q : Char) (c : Char) : String :=
  if c = Char.ofNat 92 then String.mk [Char.ofNat 92, Char.ofNat 92]
  else if c = q then String.mk [Char.ofNat 92, q]
  else if c = Char.ofNat 10 then "\\n"
  else if c = Char.ofNat 13 then "\\r"
  else if c = Char.ofNat 9 then "\\t"
  else if c.toNat < 32 ∨ c.toNat = 127 then "\\x" ++ hex2 c.toNat
  else String.mk [c]

/-- Python `repr` of a `str`: single-quoted, switching to double quotes
when the text contains a single quote but no double quote. -/
def pyReprStr (s : String) : String :=
  let q := if s.toList.contains (Char.ofNat 39) ∧
              ¬ s.toList.contains (Char.ofNat 34)
           then Char.ofNat 34 else Char.ofNat 39
  String.mk [q] ++ String.join (s.toList.map (pyReprEscapeChar q)) ++ String.mk [q]

mutual

/-- Python `repr` (equal to `str` on containers): `None`/`True`/`False`,
decimal integers, the carried float repr, quoted strings, and
bracketed, comma-separated containers whose elements are printed with
`repr`; dict entries print as `repr(key): repr(value)` in insertion
order. -/
def pyRepr : Value → String
  | .null => "None"
  | .bool true => "True"
  | .bool false => "False"
  | .int n => toString n
  | .float r => r
  | .str s => pyReprStr s
  | .arr elems => "[" ++ String.intercalate ", " (pyReprList elems) ++ "]"
  | .obj fields => "\x7b" ++ String.intercalate ", " (pyReprFields fields) ++ "\x7d"

/-- `repr` of each element of a Python list. -/
def pyReprList : List Value → List String
  | [] => []
  | v :: rest => pyRepr v :: pyReprList rest

/-- `repr(key): repr(value)` for each entry of a Python dict. -/
def pyReprFields : List (String × Value) → List String
  | [] => []
  | (k, v) :: rest => (pyReprStr k ++ ": " ++ pyRepr v) :: pyReprFields rest

end

/-- The equality key of one array element
(src/json_analyzer.py line 119):
`json.dumps(item, sort_keys=True)` for a non-container item, `str(item)`
for a list or dict.  `sort_keys` is vacuous here because only
non-containers reach `json.dumps`. -/
def itemKey : Value → String
  | .arr elems => pyRepr (.arr elems)
  | .obj fields => pyRepr (.obj fields)
  | .null => "null"
  | .bool true => "true"
  | .bool false => "false"
  | .int n => toString n
  | .float r => r
  | .str s => jsonQuote s

/-- The `for idx, item in enumerate(arr)` scan of `check_array`
(src/json_analyzer.py lines 117-127): `seen` maps an item's key string
to the index of its first occurrence; a repeat emits a record pairing
that first index with the current index and leaves `seen` unchanged. -/
def checkArrayGo (path : String) :
    List Value → Nat → List (String × Nat) → List DuplicateRecord
  | [], _, _ => []
  | item :: rest, idx, seen =>
      let key := itemKey item
      match seen.lookup key with
      | some first =>
          { path := path, value := item, indices := (first, idx) } ::
            checkArrayGo path rest (idx + 1) seen
      | none => checkArrayGo path rest (idx + 1) ((key, idx) :: seen)

/-- Embeds `check_array(arr, path)` (src/json_analyzer.py lines
113-127) on a list (the only shape `traverse` ever passes it): the
records it appends to `duplicates`, in emission order. -/
def check_array (arr : List Value) (path : String) : List DuplicateRecord :=
  checkArrayGo path arr 0 []

mutual

/-- Embeds `traverse(obj, path)` (src/json_analyzer.py lines 129-136)
as the list of records appended while traversing: a dict recurses into
each value at `path.key`; a list first runs `check_array` on itself,
then recurses into each element at `path[idx]`; scalars contribute
nothing. -/
def traverse : Value → String → List DuplicateRecord
  | .obj fields, path => traverseFields fields path
  | .arr elems, path => check_array elems path ++ traverseElems elems 0 path
  | _, _ => []

/-- The `for key, value in obj.items()` loop of `traverse`. -/
def traverseFields : List (String × Value) → String → List DuplicateRecord
  | [], _ => []
  | (k, v) :: rest, path =>
      traverse v (path ++ "." ++ k) ++ traverseFields rest path

/-- The `for idx, item in enumerate(obj)` loop of `traverse`. -/
def traverseElems : List Value → Nat → String → List DuplicateRecord
  | [], _, _ => []
  | v :: rest, idx, path =>
      traverse v (path ++ "[" ++ toString idx ++ "]") ++
        traverseElems rest (idx + 1) path

end

/-- Embeds `find_duplicates` (src/json_analyzer.py lines 109-139):
`traverse(self.data)` starting from path `"root"`. -/
def find_duplicates (v : Value) : List DuplicateRecord :=
  traverse v "root"

/-! ### Derived notions used to state properties -/

/-- A value that is neither a list nor a dict: the shapes handled by the
`else` branch of `recursive_analyze`. -/
def isScalar : Value → Bool
  | .arr _ => false
  | .obj _ => false
  | _ => true

/-- Python `isinstance(value, dict)`: whether the root is an object. -/
def isObj : Value → Bool
  | .obj _ => true
  | _ => false

mutual

/-- Total number of nodes of the value tree: every scalar, array and
object occurrence counts once. -/
def totalNodes : Value → Nat
  | .arr elems => 1 + totalNodesList elems
  | .obj fields => 1 + totalNodesFields fields
  | _ => 1

/-- Node count of a list of sibling values. -/
def totalNodesList : List Value → Nat
  | [] => 0
  | v :: rest => totalNodes v + totalNodesList rest

/-- Node count of the values of an object's fields. -/
def totalNodesFields : List (String × Value) → Nat
  | [] => 0
  | (_, v) :: rest => totalNodes v + totalNodesFields rest

end

/-- The labels ever used by the scalar branch of `recursive_analyze`,
together with the literal `"array"` label of the list branch. -/
def analyzerLabels : List String :=
  ["array", "bool", "int", "float", "str", "NoneType"]

/-- Sum of the type counts of the five scalar labels: every label of
`analyzerLabels` except `"array"`. -/
def scalarLabelSum (tc : String → Nat) : Nat :=
  tc "bool" + tc "int" + tc "float" + tc "str" + tc "NoneType"

/-- The all-zero statistics record: identity of `mergeChild`. -/
def zeroStats : Stats :=
  { type_counts := fun _ => 0, max_depth := 0, total_keys := 0,
    null_values := 0, arrays := 0, objects := 0 }

/-- The stand-alone contribution of the `if value is None` bump in the
object loop of `recursive_analyze`. -/
def nullUnit (v : Value) : Stats :=
  if isNull v then { zeroStats with null_values := 1 } else zeroStats

/-- Combined contribution of an object's fields: for each field, the
null bump plus the recursive analysis of its value. -/
def fieldsStats : List (String × Value) → Nat → Nat → Stats
  | [], _, _ => zeroStats
  | (_, v) :: rest, depth, maxd =>
      mergeChild
        (mergeChild (nullUnit v)
          (recursive_analyze v (depth + 1) (max maxd (depth + 1))))
        (fieldsStats rest depth maxd)

/-- Combined contribution of an array's elements. -/
def elemsStats : List Value → Nat → Nat → Stats
  | [], _, _ => zeroStats
  | v :: rest, depth, maxd =>
      mergeChild (recursive_analyze v (depth + 1) (max maxd (depth + 1)))
        (elemsStats rest depth maxd)

mutual

/-- Spec-side description of the duplicate finder's traversal order:
the pre-order list of every array in the tree, paired with its path,
where the path starts at the given root path and appends `[idx]` for an
array-element step and `.key` for an object-field step. -/
def arraysPreorder : Value → String → List (String × List Value)
  | .obj fields, path => arraysPreorderFields fields path
  | .arr elems, path => (path, elems) :: arraysPreorderElems elems 0 path
  | _, _ => []

/-- Pre-order arrays below an object's fields. -/
def arraysPreorderFields : List (String × Value) → String → List (String × List Value)
  | [], _ => []
  | (k, v) :: rest, path =>
      arraysPreorder v (path ++ "." ++ k) ++ arraysPreorderFields rest path

/-- Pre-order arrays below an array's elements. -/
def arraysPreorderElems : List Value → Nat → String → List (String × List Value)
  | [], _, _ => []
  | v :: rest, idx, path =>
      arraysPreorder v (path ++ "[" ++ toString idx ++ "]") ++
        arraysPreorderElems rest (idx + 1) path

end

/-- Concatenation of `check_array`'s records over a list of
(path, array) pairs. -/
def concatRecords : List (String × List Value) → List DuplicateRecord
  | [] => []
  | pe :: rest => check_array pe.2 pe.1 ++ concatRecords rest

/-! ### Basic lemmas about merging statistics -/

theorem Stats.ext_fields {s c : Stats}
    (htc : ∀ l, s.type_counts l = c.type_counts l)
    (hmd : s.max_depth = c.max_depth) (htk : s.total_keys = c.total_keys)
    (hnv : s.null_values = c.null_values) (har : s.arrays = c.arrays)
    (hob : s.objects = c.objects) : s = c := by
  cases s; cases c
  simp only [Stats.mk.injEq]
  exact ⟨funext htc, hmd, htk, hnv, har, hob⟩

theorem mergeChild_zero_left (s : Stats) : mergeChild zeroStats s = s := by
  apply Stats.ext_fields <;> simp [mergeChild, zeroStats]

theorem mergeChild_zero_right (s : Stats) : mergeChild s zeroStats = s := by
  apply Stats.ext_fields <;> simp [mergeChild, zeroStats]

theorem mergeChild_assoc (a b c : Stats) :
    mergeChild (mergeChild a b) c = mergeChild a (mergeChild b c) := by
  apply Stats.ext_fields <;>
    simp [mergeChild, Nat.add_assoc, Nat.max_assoc]

theorem nullBump_eq (acc : Stats) (v : Value) :
    (if isNull v then { acc with null_values := acc.null_values + 1 } else acc)
      = mergeChild acc (nullUnit v) := by
  by_cases h : isNull v = true
  · simp only [h, if_pos, nullUnit]
    apply Stats.ext_fields <;> simp [mergeChild, zeroStats]
  · simp only [h]
    simp only [Bool.not_eq_true] at h
    simp only [nullUnit, h]
    exact (mergeChild_zero_right acc).symm

theorem analyzeFields_eq (fields : List (String × Value)) (depth maxd : Nat)
    (acc : Stats) :
    analyzeFields fields depth maxd acc
      = mergeChild acc (fieldsStats fields depth maxd) := by
  induction fields generalizing acc with
  | nil => simp [analyzeFields, fieldsStats, mergeChild_zero_right]
  | cons kv rest ih =>
      obtain ⟨k, v⟩ := kv
      simp only [analyzeFields, fieldsStats]
      rw [nullBump_eq, ih, mergeChild_assoc, mergeChild_assoc, mergeChild_assoc]

theorem analyzeElems_eq (elems : List Value) (depth maxd : Nat) (acc : Stats) :
    analyzeElems elems depth maxd acc
      = mergeChild acc (elemsStats elems depth maxd) := by
  induction elems generalizing acc with
  | nil => simp [analyzeElems, elemsStats, mergeChild_zero_right]
  | cons v rest ih =>
      simp only [analyzeElems, elemsStats]
      rw [ih, mergeChild_assoc]

theorem recursive_analyze_obj (fields : List (String × Value)) (depth maxd : Nat) :
    recursive_analyze (.obj fields) depth maxd
      = mergeChild
          { type_counts := fun _ => 0, max_depth := maxd,
            total_keys := fields.length, null_values := 0,
            arrays := 0, objects := 1 }
          (fieldsStats fields depth maxd) := by
  rw [recursive_analyze, analyzeFields_eq]

theorem recursive_analyze_arr (elems : List Value) (depth maxd : Nat) :
    recursive_analyze (.arr elems) depth maxd
      = mergeChild
          { type_counts := fun l => if l == "array" then 1 else 0,
            max_depth := maxd, total_keys := 0, null_values := 0,
            arrays := 1, objects := 0 }
          (elemsStats elems depth maxd) := by
  rw [recursive_analyze, analyzeElems_eq]

theorem recursive_analyze_scalar (v : Value) (depth maxd : Nat)
    (h : isScalar v = true) :
    recursive_analyze v depth maxd
      = { type_counts := fun l => if l == pyTypeName v then 1 else 0,
          max_depth := maxd, total_keys := 0, null_values := 0,
          arrays := 0, objects := 0 } := by
  cases v <;> simp_all [isScalar, recursive_analyze]

/-! ### An induction principle for the nested value tree -/

mutual

theorem value_induction (P : Value → Prop) (hnull : P .null)
    (hbool : ∀ b, P (.bool b)) (hint : ∀ n, P (.int n))
    (hfloat : ∀ r, P (.float r)) (hstr : ∀ s, P (.str s))
    (harr : ∀ elems, (∀ v, v ∈ elems → P v) → P (.arr elems))
    (hobj : ∀ fields, (∀ kv, kv ∈ fields → P kv.2) → P (.obj fields)) :
    ∀ v, P v
  | .null => hnull
  | .bool b => hbool b
  | .int n => hint n
  | .float r => hfloat r
  | .str s => hstr s
  | .arr elems => harr elems
      (value_induction_list P hnull hbool hint hfloat hstr harr hobj elems)
  | .obj fields => hobj fields
      (value_induction_fields P hnull hbool hint hfloat hstr harr hobj fields)

theorem value_induction_list (P : Value → Prop) (hnull : P .null)
    (hbool : ∀ b, P (.bool b)) (hint : ∀ n, P (.int n))
    (hfloat : ∀ r, P (.float r)) (hstr : ∀ s, P (.str s))
    (harr : ∀ elems, (∀ v, v ∈ elems → P v) → P (.arr elems))
    (hobj : ∀ fields, (∀ kv, kv ∈ fields → P kv.2) → P (.obj fields)) :
    ∀ (l : List Value) (v : Value), v ∈ l → P v
  | x :: _, _, .head _ =>
      value_induction P hnull hbool hint hfloat hstr harr hobj x
  | _ :: rest, v, .tail _ h =>
      value_induction_list P hnull hbool hint hfloat hstr harr hobj rest v h

theorem value_induction_fields (P : Value → Prop) (hnull : P .null)
    (hbool : ∀ b, P (.bool b)) (hint : ∀ n, P (.int n))
    (hfloat : ∀ r, P (.float r)) (hstr : ∀ s, P (.str s))
    (harr : ∀ elems, (∀ v, v ∈ elems → P v) → P (.arr elems))
    (hobj : ∀ fields, (∀ kv, kv ∈ fields → P kv.2) → P (.obj fields)) :
    ∀ (l : List (String × Value)) (kv : String × Value), kv ∈ l → P kv.2
  | (_, v) :: _, _, .head _ =>
      value_induction P hnull hbool hint hfloat hstr harr hobj v
  | _ :: rest, kv, .tail _ h =>
      value_induction_fields P hnull hbool hint hfloat hstr harr hobj rest kv h

end

/-! ### Characterizations of the merged child statistics -/

theorem sum_map_congr {α : Type} (l : List α) (f g : α → Nat)
    (h : ∀ x ∈ l, f x = g x) : (l.map f).sum = (l.map g).sum := by
  induction l with
  | nil => rfl
  | cons x rest ih =>
      simp only [List.map_cons, List.sum_cons]
      rw [h x (List.mem_cons_self x rest),
          ih (fun y hy => h y (List.mem_cons_of_mem x hy))]

theorem elemsStats_tc (elems : List Value) (depth maxd : Nat) (l : String) :
    (elemsStats elems depth maxd).type_counts l
      = (elems.map (fun v =>
          (recursive_analyze v (depth + 1) (max maxd (depth + 1))).type_counts l)).sum := by
  induction elems with
  | nil => simp [elemsStats, zeroStats]
  | cons v rest ih => simp [elemsStats, mergeChild, ih]

theorem fieldsStats_tc (fields : List (String × Value)) (depth maxd : Nat)
    (l : String) :
    (fieldsStats fields depth maxd).type_counts l
      = (fields.map (fun kv =>
          (recursive_analyze kv.2 (depth + 1) (max maxd (depth + 1))).type_counts l)).sum := by
  induction fields with
  | nil => simp [fieldsStats, zeroStats]
  | cons kv rest ih =>
      obtain ⟨k, v⟩ := kv
      have hnu : (nullUnit v).type_counts l = 0 := by
        by_cases h : isNull v = true <;> simp [nullUnit, h, zeroStats]
      simp [fieldsStats, mergeChild, hnu, ih]

theorem elemsStats_arrays (elems : List Value) (depth maxd : Nat) :
    (elemsStats elems depth maxd).arrays
      = (elems.map (fun v =>
          (recursive_analyze v (depth + 1) (max maxd (depth + 1))).arrays)).sum := by
  induction elems with
  | nil => simp [elemsStats, zeroStats]
  | cons v rest ih => simp [elemsStats, mergeChild, ih]

theorem fieldsStats_arrays (fields : List (String × Value)) (depth maxd : Nat) :
    (fieldsStats fields depth maxd).arrays
      = (fields.map (fun kv =>
          (recursive_analyze kv.2 (depth + 1) (max maxd (depth + 1))).arrays)).sum := by
  induction fields with
  | nil => simp [fieldsStats, zeroStats]
  | cons kv rest ih =>
      obtain ⟨k, v⟩ := kv
      have hnu : (nullUnit v).arrays = 0 := by
        by_cases h : isNull v = true <;> simp [nullUnit, h, zeroStats]
      simp [fieldsStats, mergeChild, hnu, ih]

theorem elemsStats_objects (elems : List Value) (depth maxd : Nat) :
    (elemsStats elems depth maxd).objects
      = (elems.map (fun v =>
          (recursive_analyze v (depth + 1) (max maxd (depth + 1))).objects)).sum := by
  induction elems with
  | nil => simp [elemsStats, zeroStats]
  | cons v rest ih => simp [elemsStats, mergeChild, ih]

theorem fieldsStats_objects (fields : List (String × Value)) (depth maxd : Nat) :
    (fieldsStats fields depth maxd).objects
      = (fields.map (fun kv =>
          (recursive_analyze kv.2 (depth + 1) (max maxd (depth + 1))).objects)).sum := by
  induction fields with
  | nil => simp [fieldsStats, zeroStats]
  | cons kv rest ih =>
      obtain ⟨k, v⟩ := kv
      have hnu : (nullUnit v).objects = 0 := by
        by_cases h : isNull v = true <;> simp [nullUnit, h, zeroStats]
      simp [fieldsStats, mergeChild, hnu, ih]

theorem mem_le_elemsStats_md (elems : List Value) (depth maxd : Nat)
    (v : Value) (hv : v ∈ elems) :
    (recursive_analyze v (depth + 1) (max maxd (depth + 1))).max_depth
      ≤ (elemsStats elems depth maxd).max_depth := by
  induction elems with
  | nil => cases hv
  | cons x rest ih =>
      rcases List.mem_cons.mp hv with h | h
      · subst h
        exact le_trans (Nat.le_max_left _ _) (Nat.le_refl _)
      · exact le_trans (ih h) (Nat.le_max_right _ _)

theorem mem_le_fieldsStats_md (fields : List (String × Value)) (depth maxd : Nat)
    (kv : String × Value) (hv : kv ∈ fields) :
    (recursive_analyze kv.2 (depth + 1) (max maxd (depth + 1))).max_depth
      ≤ (fieldsStats fields depth maxd).max_depth := by
  induction fields with
  | nil => cases hv
  | cons x rest ih =>
      rcases List.mem_cons.mp hv with h | h
      · subst h
        calc (recursive_analyze kv.2 (depth + 1) (max maxd (depth + 1))).max_depth
            ≤ max (nullUnit kv.2).max_depth
                (recursive_analyze kv.2 (depth + 1) (max maxd (depth + 1))).max_depth :=
              Nat.le_max_right _ _
          _ ≤ _ := Nat.le_max_left _ _
      · exact le_trans (ih h) (Nat.le_max_right _ _)

/-! ### Global facts about the structural analyzer -/

theorem totalNodesList_eq_sum (elems : List Value) :
    totalNodesList elems = (elems.map totalNodes).sum := by
  induction elems with
  | nil => rfl
  | cons v rest ih => simp [totalNodesList, ih]

theorem totalNodesFields_eq_sum (fields : List (String × Value)) :
    totalNodesFields fields = (fields.map (fun kv => totalNodes kv.2)).sum := by
  induction fields with
  | nil => rfl
  | cons kv rest ih =>
      obtain ⟨k, v⟩ := kv
      simp [totalNodesFields, ih]

theorem tc_closed (v : Value) :
    ∀ depth maxd l, l ∉ analyzerLabels →
      (recursive_analyze v depth maxd).type_counts l = 0 := by
  induction v using value_induction with
  | hnull =>
      intro d m l h
      simp only [analyzerLabels, List.mem_cons, List.not_mem_nil, or_false,
        not_or] at h
      obtain ⟨h1, h2, h3, h4, h5, h6⟩ := h
      simp [recursive_analyze, pyTypeName, h6]
  | hbool b =>
      intro d m l h
      simp only [analyzerLabels, List.mem_cons, List.not_mem_nil, or_false,
        not_or] at h
      obtain ⟨h1, h2, h3, h4, h5, h6⟩ := h
      simp [recursive_analyze, pyTypeName, h2]
  | hint n =>
      intro d m l h
      simp only [analyzerLabels, List.mem_cons, List.not_mem_nil, or_false,
        not_or] at h
      obtain ⟨h1, h2, h3, h4, h5, h6⟩ := h
      simp [recursive_analyze, pyTypeName, h3]
  | hfloat r =>
      intro d m l h
      simp only [analyzerLabels, List.mem_cons, List.not_mem_nil, or_false,
        not_or] at h
      obtain ⟨h1, h2, h3, h4, h5, h6⟩ := h
      simp [recursive_analyze, pyTypeName, h4]
  | hstr s =>
      intro d m l h
      simp only [analyzerLabels, List.mem_cons, List.not_mem_nil, or_false,
        not_or] at h
      obtain ⟨h1, h2, h3, h4, h5, h6⟩ := h
      simp [recursive_analyze, pyTypeName, h5]
  | harr elems ih =>
      intro d m l h
      have h1 : l ≠ "array" := by
        intro he
        exact h (he ▸ List.mem_cons_self _ _)
      rw [recursive_analyze_arr]
      simp only [mergeChild, elemsStats_tc, h1, beq_iff_eq, if_false,
        Nat.zero_add]
      apply List.sum_eq_zero
      intro x hx
      obtain ⟨w, hw, rfl⟩ := List.mem_map.mp hx
      exact ih w hw _ _ l h
  | hobj fields ih =>
      intro d m l h
      rw [recursive_analyze_obj]
      simp only [mergeChild, fieldsStats_tc, Nat.zero_add]
      apply List.sum_eq_zero
      intro x hx
      obtain ⟨kv, hkv, rfl⟩ := List.mem_map.mp hx
      exact ih kv hkv _ _ l h

theorem tc_array_eq_arrays (v : Value) :
    ∀ depth maxd,
      (recursive_analyze v depth maxd).type_counts "array"
        = (recursive_analyze v depth maxd).arrays := by
  induction v using value_induction with
  | hnull => intro d m; rfl
  | hbool b => intro d m; cases b <;> rfl
  | hint n => intro d m; rfl
  | hfloat r => intro d m; rfl
  | hstr s => intro d m; rfl
  | harr elems ih =>
      intro d m
      rw [recursive_analyze_arr]
      simp only [mergeChild, elemsStats_tc, elemsStats_arrays]
      rw [sum_map_congr _ _ _ (fun w hw => ih w hw _ _)]
      simp
  | hobj fields ih =>
      intro d m
      rw [recursive_analyze_obj]
      simp only [mergeChild, fieldsStats_tc, fieldsStats_arrays]
      rw [sum_map_congr _ _ _ (fun kv hkv => ih kv hkv _ _)]

theorem elemsStats_scalar_sum (elems : List Value) (depth maxd : Nat) :
    scalarLabelSum (elemsStats elems depth maxd).type_counts
        + (elemsStats elems depth maxd).arrays
        + (elemsStats elems depth maxd).objects
      = (elems.map (fun v =>
          scalarLabelSum (recursive_analyze v (depth + 1) (max maxd (depth + 1))).type_counts
            + (recursive_analyze v (depth + 1) (max maxd (depth + 1))).arrays
            + (recursive_analyze v (depth + 1) (max maxd (depth + 1))).objects)).sum := by
  induction elems with
  | nil => rfl
  | cons v rest ih =>
      simp only [elemsStats, List.map_cons, List.sum_cons, ← ih]
      simp only [mergeChild, scalarLabelSum]
      omega

theorem fieldsStats_scalar_sum (fields : List (String × Value)) (depth maxd : Nat) :
    scalarLabelSum (fieldsStats fields depth maxd).type_counts
        + (fieldsStats fields depth maxd).arrays
        + (fieldsStats fields depth maxd).objects
      = (fields.map (fun kv =>
          scalarLabelSum (recursive_analyze kv.2 (depth + 1) (max maxd (depth + 1))).type_counts
            + (recursive_analyze kv.2 (depth + 1) (max maxd (depth + 1))).arrays
            + (recursive_analyze kv.2 (depth + 1) (max maxd (depth + 1))).objects)).sum := by
  induction fields with
  | nil => rfl
  | cons kv rest ih =>
      obtain ⟨k, v⟩ := kv
      have hnu : scalarLabelSum (nullUnit v).type_counts = 0 ∧
          (nullUnit v).arrays = 0 ∧ (nullUnit v).objects = 0 := by
        by_cases h : isNull v = true <;>
          simp [nullUnit, h, zeroStats, scalarLabelSum]
      obtain ⟨hn1, hn2, hn3⟩ := hnu
      simp only [fieldsStats, List.map_cons, List.sum_cons, ← ih]
      simp only [mergeChild, scalarLabelSum] at *
      omega

theorem analyzer_node_total (v : Value) :
    ∀ depth maxd,
      scalarLabelSum (recursive_analyze v depth maxd).type_counts
          + (recursive_analyze v depth maxd).arrays
          + (recursive_analyze v depth maxd).objects
        = totalNodes v := by
  induction v using value_induction with
  | hnull => intro d m; rfl
  | hbool b => intro d m; cases b <;> rfl
  | hint n => intro d m; rfl
  | hfloat r => intro d m; rfl
  | hstr s => intro d m; rfl
  | harr elems ih =>
      intro d m
      rw [recursive_analyze_arr]
      have hmc : ∀ s c : Stats,
          scalarLabelSum (mergeChild s c).type_counts + (mergeChild s c).arrays
              + (mergeChild s c).objects
            = (scalarLabelSum s.type_counts + s.arrays + s.objects)
              + (scalarLabelSum c.type_counts + c.arrays + c.objects) := by
        intro s c
        simp only [mergeChild, scalarLabelSum]
        omega
      rw [hmc, elemsStats_scalar_sum,
          sum_map_congr _ _ _ (fun w hw => ih w hw _ _),
          totalNodes, totalNodesList_eq_sum]
      simp [scalarLabelSum]
  | hobj fields ih =>
      intro d m
      rw [recursive_analyze_obj]
      have hmc : ∀ s c : Stats,
          scalarLabelSum (mergeChild s c).type_counts + (mergeChild s c).arrays
              + (mergeChild s c).objects
            = (scalarLabelSum s.type_counts + s.arrays + s.objects)
              + (scalarLabelSum c.type_counts + c.arrays + c.objects) := by
        intro s c
        simp only [mergeChild, scalarLabelSum]
        omega
      rw [hmc, fieldsStats_scalar_sum,
          sum_map_congr _ _ _ (fun kv hkv => ih kv hkv _ _),
          totalNodes, totalNodesFields_eq_sum]
      simp [scalarLabelSum]

theorem md_ge (v : Value) (depth maxd : Nat) :
    maxd ≤ (recursive_analyze v depth maxd).max_depth := by
  cases v with
  | arr elems =>
      rw [recursive_analyze_arr]
      exact Nat.le_max_left _ _
  | obj fields =>
      rw [recursive_analyze_obj]
      exact Nat.le_max_left _ _
  | null => exact Nat.le_refl _
  | bool b => exact Nat.le_refl _
  | int n => exact Nat.le_refl _
  | float r => exact Nat.le_refl _
  | str s => exact Nat.le_refl _

theorem analyze_md_zero_iff (v : Value) :
    (analyze_structure v).max_depth = 0
      ↔ (isScalar v = true ∨ v = .obj [] ∨ v = .arr []) := by
  cases v with
  | null => simp [analyze_structure, recursive_analyze, isScalar]
  | bool b => simp [analyze_structure, recursive_analyze, isScalar]
  | int n => simp [analyze_structure, recursive_analyze, isScalar]
  | float r => simp [analyze_structure, recursive_analyze, isScalar]
  | str s => simp [analyze_structure, recursive_analyze, isScalar]
  | arr elems =>
      cases elems with
      | nil => simp [analyze_structure, recursive_analyze_arr, mergeChild,
          elemsStats, zeroStats, isScalar]
      | cons x xs =>
          have hx : 1 ≤ (elemsStats (x :: xs) 0 0).max_depth :=
            le_trans (md_ge x 1 1)
              (mem_le_elemsStats_md (x :: xs) 0 0 x (List.mem_cons_self x xs))
          simp only [analyze_structure, recursive_analyze_arr, mergeChild,
            isScalar]
          constructor
          · intro h
            exact absurd h (by omega)
          · intro h
            rcases h with h | h | h <;> simp_all
  | obj fields =>
      cases fields with
      | nil => simp [analyze_structure, recursive_analyze_obj, mergeChild,
          fieldsStats, zeroStats, isScalar]
      | cons kv rest =>
          have hx : 1 ≤ (fieldsStats (kv :: rest) 0 0).max_depth :=
            le_trans (md_ge kv.2 1 1)
              (mem_le_fieldsStats_md (kv :: rest) 0 0 kv (List.mem_cons_self kv rest))
          simp only [analyze_structure, recursive_analyze_obj, mergeChild,
            isScalar]
          constructor
          · intro h
            exact absurd h (by omega)
          · intro h
            rcases h with h | h | h <;> simp_all

theorem analyze_singleton_scalar_md (s : Value) (h : isScalar s = true) :
    (analyze_structure (.arr [s])).max_depth = 1 := by
  cases s with
  | arr elems => simp [isScalar] at h
  | obj fields => simp [isScalar] at h
  | null => rfl
  | bool b => rfl
  | int n => rfl
  | float r => rfl
  | str s => rfl

/-! ### The schema validator's loop -/

theorem validate_foldl (fields : List (String × Value)) (keys : List String) :
    ∀ acc : ValidationResult,
      keys.foldl (validateStep fields) acc
        = { valid := acc.valid && keys.all (fun k => objHasKey fields k),
            missing_keys := acc.missing_keys ++ keys.filter (fun k => !objHasKey fields k),
            found_keys := acc.found_keys ++ keys.filter (fun k => objHasKey fields k),
            error := acc.error } := by
  induction keys with
  | nil =>
      intro acc
      obtain ⟨va, ma, fa, ea⟩ := acc
      simp
  | cons k rest ih =>
      intro acc
      obtain ⟨va, ma, fa, ea⟩ := acc
      by_cases h : objHasKey fields k
      · simp [validateStep, h, ih, List.filter_cons, List.all_cons]
      · simp only [Bool.not_eq_true] at h
        simp [validateStep, h, ih, List.filter_cons, List.all_cons]

theorem validate_schema_obj_eq (fields : List (String × Value)) (keys : List String) :
    validate_schema (.obj fields) keys
      = { valid := keys.all (fun k => objHasKey fields k),
          missing_keys := keys.filter (fun k => !objHasKey fields k),
          found_keys := keys.filter (fun k => objHasKey fields k),
          error := none } := by
  simp [validate_schema, validate_foldl]

/-! ### The duplicate finder's traversal -/

theorem concatRecords_append (a b : List (String × List Value)) :
    concatRecords (a ++ b) = concatRecords a ++ concatRecords b := by
  induction a with
  | nil => rfl
  | cons pe rest ih => simp [concatRecords, ih]

theorem traverseElems_eq (es : List Value)
    (h : ∀ v ∈ es, ∀ path, traverse v path = concatRecords (arraysPreorder v path)) :
    ∀ idx path, traverseElems es idx path
      = concatRecords (arraysPreorderElems es idx path) := by
  induction es with
  | nil => intro idx path; rfl
  | cons v rest ih =>
      intro idx path
      simp only [traverseElems, arraysPreorderElems, concatRecords_append]
      rw [h v (List.mem_cons_self v rest),
          ih (fun w hw => h w (List.mem_cons_of_mem v hw))]

theorem traverseFields_eq (fs : List (String × Value))
    (h : ∀ kv ∈ fs, ∀ path, traverse kv.2 path = concatRecords (arraysPreorder kv.2 path)) :
    ∀ path, traverseFields fs path
      = concatRecords (arraysPreorderFields fs path) := by
  induction fs with
  | nil => intro path; rfl
  | cons kv rest ih =>
      obtain ⟨k, v⟩ := kv
      intro path
      simp only [traverseFields, arraysPreorderFields, concatRecords_append]
      rw [h (k, v) (List.mem_cons_self (k, v) rest),
          ih (fun w hw => h w (List.mem_cons_of_mem (k, v) hw))]

theorem traverse_eq_concat (v : Value) :
    ∀ path, traverse v path = concatRecords (arraysPreorder v path) := by
  induction v using value_induction with
  | hnull => intro path; rfl
  | hbool b => intro path; rfl
  | hint n => intro path; rfl
  | hfloat r => intro path; rfl
  | hstr s => intro path; rfl
  | harr elems ih =>
      intro path
      simp only [traverse, arraysPreorder, concatRecords]
      rw [traverseElems_eq elems ih]
  | hobj fields ih =>
      intro path
      simp only [traverse, arraysPreorder]
      rw [traverseFields_eq fields ih]

theorem checkArrayGo_path_eq (path : String) :
    ∀ (l : List Value) (idx : Nat) (seen : List (String × Nat))
      (r : DuplicateRecord), r ∈ checkArrayGo path l idx seen → r.path = path := by
  intro l
  induction l with
  | nil => intro idx seen r hr; cases hr
  | cons item rest ih =>
      intro idx seen r hr
      simp only [checkArrayGo] at hr
      split at hr
      · rcases List.mem_cons.mp hr with h | h
        · rw [h]
        · exact ih _ _ _ h
      · exact ih _ _ _ hr

theorem checkArrayGo_snd_ge (path : String) :
    ∀ (l : List Value) (idx : Nat) (seen : List (String × Nat))
      (r : DuplicateRecord), r ∈ checkArrayGo path l idx seen → idx ≤ r.indices.2 := by
  intro l
  induction l with
  | nil => intro idx seen r hr; cases hr
  | cons item rest ih =>
      intro idx seen r hr
      simp only [checkArrayGo] at hr
      split at hr
      · rcases List.mem_cons.mp hr with h | h
        · rw [h]
        · exact le_trans (Nat.le_succ idx) (ih _ _ _ h)
      · exact le_trans (Nat.le_succ idx) (ih _ _ _ hr)

theorem checkArrayGo_pairwise (path : String) :
    ∀ (l : List Value) (idx : Nat) (seen : List (String × Nat)),
      List.Pairwise (fun a b => a.indices.2 < b.indices.2)
        (checkArrayGo path l idx seen) := by
  intro l
  induction l with
  | nil => intro idx seen; exact List.Pairwise.nil
  | cons item rest ih =>
      intro idx seen
      simp only [checkArrayGo]
      split
      · refine List.Pairwise.cons ?_ (ih _ _)
        intro r hr
        have := checkArrayGo_snd_ge path rest (idx + 1) seen r hr
        simp only []
        omega
      · exact ih _ _

/-! ### The claims -/

/-- C1 (counterexample): the claim says `find_duplicates([1,1,1])` returns
exactly one record; the code returns two (the occurrence at index 2 is
re-reported against index 0). -/
theorem find_duplicates_triple_two_records :
    (find_duplicates (Value.arr [.int 1, .int 1, .int 1])).length = 2 := rfl

/-- C1 (amended): for the root array `[1,1,1]`, `find_duplicates` returns
exactly two records, `(0,1)` and `(0,2)`, both at path `root`: each later
occurrence of the value is paired with the index of its first
occurrence. -/
theorem find_duplicates_triple_records :
    find_duplicates (Value.arr [.int 1, .int 1, .int 1])
      = [⟨"root", .int 1, (0, 1)⟩, ⟨"root", .int 1, (0, 2)⟩] := rfl

/-- C2 (counterexample): the error text of the claim, `"root must be an
object"`, is not the error text the code produces for a non-object
root. -/
theorem validate_error_text_cex :
    (validate_schema (Value.arr []) []).error ≠ some "root must be an object" := by
  decide

/-- C2 (amended): for every value that is not an object and every
required-key list, `validate_schema` returns
`{valid: false, error: "Root must be an object for schema validation",
found_keys: [], missing_keys: []}` immediately; the result does not
depend on `required_keys`, and the error is a field of the returned
record, not an exception. -/
theorem validate_nonobject_result (v : Value) (keys : List String)
    (h : isObj v = false) :
    validate_schema v keys
      = { valid := false, missing_keys := [], found_keys := [],
          error := some "Root must be an object for schema validation" } := by
  cases v <;> simp_all [isObj, validate_schema]

/-- Witness for C2's amended theorem at the concrete root `[]` with a
nonempty required-key list. -/
theorem validate_nonobject_result_witness :
    isObj (Value.arr []) = false ∧
    validate_schema (Value.arr []) ["a"]
      = { valid := false, missing_keys := [], found_keys := [],
          error := some "Root must be an object for schema validation" } :=
  ⟨rfl, validate_nonobject_result (Value.arr []) ["a"] rfl⟩

/-- C3 (counterexample): analyzing `[null]` does not give
`type_counts["null"] == 1` — the code keys the counter by the Python
type name `NoneType`, never `null`. -/
theorem null_label_count_cex :
    ¬ ((analyze_structure (Value.arr [Value.null])).type_counts "null" = 1) := by
  decide

/-- C3 (amended): analyzing the object `{"x": null}` yields
`null_values == 1`, and analyzing the array `[null]` yields
`null_values == 0` but `type_counts["NoneType"] == 1`: a null under an
object key increments `null_values`, a null array element is counted
only under its type label, which is `NoneType`. -/
theorem null_counting_asymmetry :
    (analyze_structure (Value.obj [("x", Value.null)])).null_values = 1 ∧
    (analyze_structure (Value.arr [Value.null])).null_values = 0 ∧
    (analyze_structure (Value.arr [Value.null])).type_counts "NoneType" = 1 :=
  ⟨rfl, rfl, rfl⟩

/-- C4 (counterexample): the label `NoneType` occurs with nonzero count
(already for the root value `null`) and is not in the claim's closed set
`{object, array, string, number, bool, null}`. -/
theorem type_label_set_cex :
    (analyze_structure Value.null).type_counts "NoneType" ≠ 0 ∧
    "NoneType" ∉ (["object", "array", "string", "number", "bool", "null"] : List String) := by
  constructor
  · decide
  · decide

/-- C4 (amended): for every value, every label occurring with nonzero
count in `(analyze_structure v).type_counts` belongs to the closed set
`{array, bool, int, float, str, NoneType}`. -/
theorem type_labels_closed (v : Value) (l : String)
    (h : (analyze_structure v).type_counts l ≠ 0) : l ∈ analyzerLabels := by
  by_contra hc
  exact h (tc_closed v 0 0 l hc)

/-- Witness for C4's amended theorem at the concrete value `[]` and
label `array`. -/
theorem type_labels_closed_witness :
    (analyze_structure (Value.arr [])).type_counts "array" ≠ 0 ∧
    "array" ∈ analyzerLabels :=
  ⟨by decide, type_labels_closed (Value.arr []) "array" (by decide)⟩

/-- C5: for every value `v`, `(analyze_structure v).max_depth ≥ 0`, and
it equals `0` exactly when `v` is a scalar, the empty object or the
empty array; moreover a root array holding one scalar has
`max_depth = 1`. -/
theorem max_depth_zero_iff_flat :
    (∀ v : Value, 0 ≤ (analyze_structure v).max_depth ∧
      ((analyze_structure v).max_depth = 0 ↔
        (isScalar v = true ∨ v = Value.obj [] ∨ v = Value.arr []))) ∧
    (∀ s : Value, isScalar s = true →
      (analyze_structure (Value.arr [s])).max_depth = 1) :=
  ⟨fun v => ⟨Nat.zero_le _, analyze_md_zero_iff v⟩, analyze_singleton_scalar_md⟩

/-- Witness for C5 at the concrete values `null` and `[5]`. -/
theorem max_depth_zero_iff_flat_witness :
    (0 ≤ (analyze_structure Value.null).max_depth ∧
      ((analyze_structure Value.null).max_depth = 0 ↔
        (isScalar Value.null = true ∨ Value.null = Value.obj [] ∨
          Value.null = Value.arr []))) ∧
    (analyze_structure (Value.arr [Value.int 5])).max_depth = 1 :=
  ⟨max_depth_zero_iff_flat.1 Value.null,
   max_depth_zero_iff_flat.2 (Value.int 5) rfl⟩

/-- C6: for every value, the sum of the scalar-label counts (the type
counts of every label except `array`: the three conjuncts together show
the only other label with nonzero count is `array` itself) plus the
`arrays` count plus the `objects` count equals the total node count;
each array node is counted both in `arrays` and under the `array` type
label, while object nodes appear in no type label at all. -/
theorem node_count_accounting (v : Value) :
    scalarLabelSum (analyze_structure v).type_counts
        + (analyze_structure v).arrays + (analyze_structure v).objects
      = totalNodes v ∧
    (analyze_structure v).type_counts "array" = (analyze_structure v).arrays ∧
    ∀ l, l ∉ analyzerLabels → (analyze_structure v).type_counts l = 0 :=
  ⟨analyzer_node_total v 0 0, tc_array_eq_arrays v 0 0,
   fun l h => tc_closed v 0 0 l h⟩

/-- Witness for C6 at the concrete value `{"a": [1]}` and the excluded
label `object`. -/
theorem node_count_accounting_witness :
    scalarLabelSum (analyze_structure (Value.obj [("a", Value.arr [Value.int 1])])).type_counts
        + (analyze_structure (Value.obj [("a", Value.arr [Value.int 1])])).arrays
        + (analyze_structure (Value.obj [("a", Value.arr [Value.int 1])])).objects
      = totalNodes (Value.obj [("a", Value.arr [Value.int 1])]) ∧
    (analyze_structure (Value.obj [("a", Value.arr [Value.int 1])])).type_counts "array"
      = (analyze_structure (Value.obj [("a", Value.arr [Value.int 1])])).arrays ∧
    (analyze_structure (Value.obj [("a", Value.arr [Value.int 1])])).type_counts "object" = 0 :=
  ⟨(node_count_accounting (Value.obj [("a", Value.arr [Value.int 1])])).1,
   (node_count_accounting (Value.obj [("a", Value.arr [Value.int 1])])).2.1,
   (node_count_accounting (Value.obj [("a", Value.arr [Value.int 1])])).2.2 "object" (by decide)⟩

/-- C7: `find_duplicates` emits exactly the concatenation, over the
pre-order sequence of arrays (each with its path built from `root` by
appending `[idx]` per array-element step and `.key` per object-field
step), of that array's `check_array` records; within one array the
records are strictly increasing in the index of the second occurrence,
and each record carries its array's path. -/
theorem duplicates_order_and_paths :
    (∀ v : Value, find_duplicates v = concatRecords (arraysPreorder v "root")) ∧
    ∀ (path : String) (elems : List Value),
      List.Pairwise (· < ·)
        ((check_array elems path).map (fun r => r.indices.2)) ∧
      ∀ r ∈ check_array elems path, r.path = path := by
  refine ⟨fun v => traverse_eq_concat v "root", fun path elems => ⟨?_, ?_⟩⟩
  · exact List.pairwise_map.mpr (checkArrayGo_pairwise path elems 0 [])
  · exact fun r hr => checkArrayGo_path_eq path elems 0 [] r hr

/-- Witness for C7 at the concrete value `{"a": [1, 1]}` and the record
the inner array produces. -/
theorem duplicates_order_and_paths_witness :
    find_duplicates (Value.obj [("a", Value.arr [Value.int 1, Value.int 1])])
      = concatRecords (arraysPreorder
          (Value.obj [("a", Value.arr [Value.int 1, Value.int 1])]) "root") ∧
    (⟨"root.a", Value.int 1, (0, 1)⟩ : DuplicateRecord).path = "root.a" :=
  ⟨duplicates_order_and_paths.1 _,
   (duplicates_order_and_paths.2 "root.a" [Value.int 1, Value.int 1]).2
     ⟨"root.a", Value.int 1, (0, 1)⟩ (List.Mem.head _)⟩

/-- C8: for every object root, `validate_schema` partitions the required
keys in order — found keys and missing keys are the in-order filters by
key membership, evaluated per occurrence — `valid` is true exactly when
`missing_keys` is empty, and `validate({"a":1}, ["a","b"])` yields
`{valid: false, found_keys: ["a"], missing_keys: ["b"]}`. -/
theorem validate_object_partition (fields : List (String × Value))
    (keys : List String) :
    validate_schema (.obj fields) keys
      = { valid := keys.all (fun k => objHasKey fields k),
          missing_keys := keys.filter (fun k => !objHasKey fields k),
          found_keys := keys.filter (fun k => objHasKey fields k),
          error := none } ∧
    ((validate_schema (.obj fields) keys).valid = true ↔
      (validate_schema (.obj fields) keys).missing_keys = []) ∧
    validate_schema (.obj [("a", Value.int 1)]) ["a", "b"]
      = { valid := false, missing_keys := ["b"], found_keys := ["a"],
          error := none } := by
  refine ⟨validate_schema_obj_eq fields keys, ?_, rfl⟩
  rw [validate_schema_obj_eq]
  simp [List.all_eq_true, List.filter_eq_nil_iff]

/-- C9: `find_duplicates([1,2,1])` yields exactly the record
`{path: "root", value: 1, indices: (0,2)}`: the later occurrence is
paired with the index of its first occurrence, and the root array's path
is `root`. -/
theorem find_duplicates_121_single_record :
    find_duplicates (Value.arr [.int 1, .int 2, .int 1])
      = [⟨"root", .int 1, (0, 2)⟩] := rfl

/-- C10: for every object root and required-key list, the result of
`validate_schema` carries no error value, even when keys are missing;
a non-object root always carries one. -/
theorem validate_object_no_error :
    (∀ (fields : List (String × Value)) (keys : List String),
      (validate_schema (Value.obj fields) keys).error = none) ∧
    ∀ (v : Value) (keys : List String), isObj v = false →
      (validate_schema v keys).error ≠ none := by
  constructor
  · intro fields keys
    rw [validate_schema_obj_eq]
  · intro v keys h
    cases v <;> simp_all [isObj, validate_schema]

/-- Witness for C10 at an object root missing its required key and at
the non-object root `[]`. -/
theorem validate_object_no_error_witness :
    (validate_schema (Value.obj []) ["k"]).error = none ∧
    (validate_schema (Value.arr []) ["k"]).error ≠ none :=
  ⟨validate_object_no_error.1 [] ["k"],
   validate_object_no_error.2 (Value.arr []) ["k"] rfl⟩

end JsonAnalyzer
